import Mathlib

set_option linter.unusedVariables false
set_option maxRecDepth 100000

namespace Uap

/-!
Shallow embedding of the parts of the uap repository that the claims are about:
`src/include/process_pool.py` (process-pipeline executor) and
`src/include/pipeline.py` (configuration, step graph, dependency index,
ping-file checks, task wish lists).

Modelling conventions: bytes are `Nat`, byte strings are `List Nat`,
Python strings are `String` or `List Char`, Python dicts keyed by strings are
association lists (insertion order preserved, which matches CPython dicts),
and functions that can `raise UAPError` return `Except String`.
-/

/-! ### ProcessPool constants (src/include/process_pool.py, lines 23-25) -/

def TAIL_LENGTH : Nat := 1024

def COPY_BLOCK_SIZE : Nat := 4194304

def SIGTERM_TIMEOUT : Nat := 5

/-- The hashlib algorithms relevant here. The copy process constructs its
running checksum object with `hashlib.sha1()` (process_pool.py, line 254). -/
inductive HashAlg where
  | sha1
  | sha256
deriving DecidableEq, Repr

/-- Abstract model of a finished hashlib digest: the algorithm together with the
exact byte sequence absorbed by `update` calls. SHA-1 and SHA-256 digests have
different lengths (20 vs 32 bytes), so digests produced by different algorithms
are never equal, and a digest is a function of the algorithm and the absorbed
byte sequence; the pair is therefore a faithful abstraction for equality
statements about recorded digests. -/
def hashDigest (alg : HashAlg) (bytes : List Nat) : HashAlg × List Nat := (alg, bytes)

/-- State of the copy loop of `ProcessPool._do_launch_copy_process`
(process_pool.py, lines 254-279): the bytes absorbed by the checksum so far,
the `tail` string, the byte count and the newline count. -/
structure CopyState where
  hashed : List Nat
  tail : List Nat
  length : Nat
  newlines : Nat
deriving DecidableEq, Repr

/-- Initial copy state: checksum is a fresh `hashlib.sha1()` object, tail is the
empty string, length and newline count are 0 (process_pool.py, lines 254-257). -/
def initCopyState : CopyState := ⟨[], [], 0, 0⟩

/-- The tail update of one loop iteration (process_pool.py, lines 269-273):
if `len(block) >= TAIL_LENGTH` then `tail = block[-TAIL_LENGTH:]`, else
`keep_length = TAIL_LENGTH - len(block); tail = tail[0:keep_length] + block`. -/
def updateTail (tail block : List Nat) : List Nat :=
  if TAIL_LENGTH ≤ block.length then block.drop (block.length - TAIL_LENGTH)
  else tail.take (TAIL_LENGTH - block.length) ++ block

/-- The copy loop of `_do_launch_copy_process` (process_pool.py, lines 259-279)
over the sequence of blocks returned by successive `fin.read` calls. A block of
length zero means the stream is closed and the loop breaks; every iteration
updates the checksum, the tail, the length and the newline count
(newline is byte 10). Writes to the sink file and the downstream pipe do not
affect the report fields and are not modelled here. -/
def copyRun : CopyState → List (List Nat) → CopyState
  | st, [] => st
  | st, block :: rest =>
    if block.length = 0 then st
    else
      copyRun
        { hashed := st.hashed ++ block
          tail := updateTail st.tail block
          length := st.length + block.length
          newlines := st.newlines + block.count 10 } rest

/-- The report written by the copy process after the loop finishes
(process_pool.py, lines 302-308): under the key "sha1" the value
`checksum.hexdigest()`, under "tail" the tail, under "length" the byte count,
under "lines" the newline count. The `hash` field records the digest of the
`hashlib.sha1()` object constructed on line 254. -/
structure CopyReport where
  hash : HashAlg × List Nat
  tail : List Nat
  length : Nat
  lines : Nat
deriving DecidableEq, Repr

def copyReport (blocks : List (List Nat)) : CopyReport :=
  let st := copyRun initCopyState blocks
  { hash := hashDigest HashAlg.sha1 st.hashed
    tail := st.tail
    length := st.length
    lines := st.newlines }

/-- The last `n` bytes of a byte sequence (the whole sequence when it is
shorter than `n`); this is the Python slice `s[-n:]` for nonempty `s`. -/
def lastBytes (n : Nat) (s : List Nat) : List Nat := s.drop (s.length - n)

/-- Accumulator lemma for the copy loop: when no block is empty, the loop
absorbs exactly the concatenation of the blocks into the checksum and adds
its total length to the byte count. -/
theorem copyRun_hashed_length (blocks : List (List Nat)) :
    ∀ st : CopyState, (∀ b ∈ blocks, b ≠ []) →
      (copyRun st blocks).hashed = st.hashed ++ blocks.flatten ∧
      (copyRun st blocks).length = st.length + blocks.flatten.length := by
  induction blocks with
  | nil => intro st _; simp [copyRun]
  | cons block rest ih =>
    intro st hne
    have hb : block ≠ [] := hne block (by simp)
    have hlen : ¬ block.length = 0 := by
      simpa [List.length_eq_zero] using hb
    have hrest : ∀ b ∈ rest, b ≠ [] := fun b hb2 => hne b (by simp [hb2])
    have := ih
      { hashed := st.hashed ++ block
        tail := updateTail st.tail block
        length := st.length + block.length
        newlines := st.newlines + block.count 10 } hrest
    simp only [copyRun, if_neg hlen]
    constructor
    · rw [this.1]; simp [List.append_assoc]
    · rw [this.2]; simp [List.length_append, Nat.add_assoc]

/-- C1, counterexample. The claim asserts that the recorded hash is the SHA-256
of the bytes read, and in particular that a zero-byte stream records the
SHA-256 of the empty string. The copy process constructs its checksum with
`hashlib.sha1()` (process_pool.py, line 254) and stores its digest under the
report key `sha1` (line 304): even for the zero-byte stream the recorded digest
is a SHA-1 digest, never equal to a SHA-256 digest. -/
theorem copyReport_hash_not_sha256 :
    (copyReport []).hash ≠ hashDigest HashAlg.sha256 [] := by
  decide

/-- C1, amended. For every child process stream captured by the copy listener,
the hash recorded in the stream report is the SHA-1 (not SHA-256) of the full
byte sequence read from the stream, the recorded length is the total number of
bytes read, and for a stream of zero bytes the recorded hash is the SHA-1 of
the empty string and the recorded length is 0. -/
theorem copyReport_hash_is_sha1_of_stream (blocks : List (List Nat))
    (hne : ∀ b ∈ blocks, b ≠ []) :
    (copyReport blocks).hash = hashDigest HashAlg.sha1 blocks.flatten ∧
    (copyReport blocks).length = blocks.flatten.length ∧
    (copyReport []).hash = hashDigest HashAlg.sha1 [] ∧
    (copyReport []).length = 0 := by
  have h := copyRun_hashed_length blocks initCopyState hne
  refine ⟨?_, ?_, rfl, rfl⟩
  · simp only [copyReport, hashDigest]
    rw [h.1]; simp [initCopyState]
  · simp only [copyReport]
    rw [h.2]; simp [initCopyState]

/-- C1, witness for the amended theorem at a concrete two-block stream. -/
theorem copyReport_hash_is_sha1_of_stream_witness :
    (∀ b ∈ [[104, 105, 10], [33]], b ≠ ([] : List Nat)) ∧
    ((copyReport [[104, 105, 10], [33]]).hash =
        hashDigest HashAlg.sha1 [104, 105, 10, 33] ∧
      (copyReport [[104, 105, 10], [33]]).length = 4) := by
  have h := copyReport_hash_is_sha1_of_stream [[104, 105, 10], [33]] (by decide)
  exact ⟨by decide, by simpa using ⟨h.1, h.2.1⟩⟩

/-- The first 1024-byte block of the C4 failing input: byte 0 followed by
1023 copies of byte 1. -/
def c4BlockOne : List Nat := 0 :: List.replicate 1023 1

/-- C4 failing input evaluated. The claim (and the code's clear intent, the
variable is literally named `tail` and holds the last 1024 bytes after any
first block of at least 1024 bytes) is that the reported tail equals the last
1024 bytes of the stream. The update `tail = tail[0:keep_length] + block`
(process_pool.py, line 273) keeps the FIRST `keep_length` bytes of the previous
tail instead of the last ones. Reading the 1025-byte stream
(0x00, 0x01 x 1023, 0x02) as a 1024-byte block followed by a 1-byte block
produces the tail (0x00, 0x01 x 1022, 0x02), while the last 1024 bytes of the
stream are (0x01 x 1023, 0x02). -/
theorem copyReport_tail_not_last_bytes :
    (copyReport [c4BlockOne, [2]]).tail =
      0 :: (List.replicate 1022 1 ++ [2]) ∧
    lastBytes TAIL_LENGTH (c4BlockOne ++ [2]) =
      List.replicate 1023 1 ++ [2] ∧
    (copyReport [c4BlockOne, [2]]).tail ≠
      lastBytes TAIL_LENGTH (c4BlockOne ++ [2]) := by
  refine ⟨?_, ?_, ?_⟩ <;> decide

/-! ### Reaping child processes: `ProcessPool._wait` (process_pool.py, lines 325-397) -/

def SIGTERM : Nat := 15

def SIGKILL : Nat := 9

/-- The table `ProcessPool.SIGNAL_NAMES` (process_pool.py, line 28): signal
number mapped to name, built from the attributes of the Python signal module
whose names start with SIG and contain no underscore. The values below are the
Linux values of CPython 2.7; where two module attributes share a number
(SIGABRT/SIGIOT, SIGCHLD/SIGCLD, SIGIO/SIGPOLL) the alphabetically later name
wins because `dir(signal)` is sorted and the dict comprehension overwrites. -/
def SIGNAL_NAMES : List (Nat × String) :=
  [(1, "SIGHUP"), (2, "SIGINT"), (3, "SIGQUIT"), (4, "SIGILL"), (5, "SIGTRAP"),
   (6, "SIGIOT"), (7, "SIGBUS"), (8, "SIGFPE"), (9, "SIGKILL"), (10, "SIGUSR1"),
   (11, "SIGSEGV"), (12, "SIGUSR2"), (13, "SIGPIPE"), (14, "SIGALRM"),
   (15, "SIGTERM"), (16, "SIGSTKFLT"), (17, "SIGCLD"), (18, "SIGCONT"),
   (19, "SIGSTOP"), (20, "SIGTSTP"), (21, "SIGTTIN"), (22, "SIGTTOU"),
   (23, "SIGURG"), (24, "SIGXCPU"), (25, "SIGXFSZ"), (26, "SIGVTALRM"),
   (27, "SIGPROF"), (28, "SIGWINCH"), (29, "SIGPOLL"), (30, "SIGPWR"),
   (31, "SIGSYS"), (34, "SIGRTMIN"), (64, "SIGRTMAX")]

/-- Whether a signal number is a key of `SIGNAL_NAMES`. -/
def knownSignal (n : Nat) : Bool := (SIGNAL_NAMES.find? (fun p => p.1 == n)).isSome

/-- The per-process keys that `ProcessPool._wait` adds to `proc_details[pid]`
when a child is reaped (process_pool.py, lines 353-358); a missing key is
`none`. -/
structure ReapDetails where
  exitCode : Option Nat
  signalNumber : Option Nat
  signalName : Option String
deriving DecidableEq, Repr

/-- The status decoding of `ProcessPool._wait` (process_pool.py, lines
343-358): with `signal_number = exit_code_with_signal & 255` and
`exit_code = exit_code_with_signal >> 8`, a zero signal number records only
the key exit_code, a nonzero signal number records only the key signal,
together with signal_name exactly when the number is a key of SIGNAL_NAMES. -/
def reapDetails (status : Nat) : ReapDetails :=
  let signalNumber := status % 256
  let exitCode := status / 256
  if signalNumber = 0 then
    { exitCode := some exitCode, signalNumber := none, signalName := none }
  else
    { exitCode := none
      signalNumber := some signalNumber
      signalName := (SIGNAL_NAMES.find? (fun p => p.1 == signalNumber)).map Prod.snd }

/-- C10, confirmed. For every reaped child, the recorded details contain
exactly one of exit_code (when the wait status carries no signal number, i.e.
its low byte is zero) or signal (when it does), never both; signal_name is
present exactly when the nonzero signal number has a known symbolic name. -/
theorem reapDetails_exit_xor_signal (status : Nat) :
    ((reapDetails status).exitCode.isSome ↔ status % 256 = 0) ∧
    ((reapDetails status).signalNumber.isSome ↔ status % 256 ≠ 0) ∧
    ¬ ((reapDetails status).exitCode.isSome ∧
        (reapDetails status).signalNumber.isSome) ∧
    ((reapDetails status).signalName.isSome ↔
      status % 256 ≠ 0 ∧ knownSignal (status % 256) = true) := by
  by_cases h : status % 256 = 0 <;>
    simp [reapDetails, knownSignal, h, Option.isSome_map]

/-- C10, witness at the two kinds of wait status: status 256 (exit code 1,
no signal) and status 9 (killed by SIGKILL, a known signal name). -/
theorem reapDetails_exit_xor_signal_witness :
    (((reapDetails 256).exitCode.isSome ↔ 256 % 256 = 0) ∧
      ((reapDetails 256).signalNumber.isSome ↔ 256 % 256 ≠ 0) ∧
      ¬ ((reapDetails 256).exitCode.isSome ∧
          (reapDetails 256).signalNumber.isSome) ∧
      ((reapDetails 256).signalName.isSome ↔
        256 % 256 ≠ 0 ∧ knownSignal (256 % 256) = true)) ∧
    (((reapDetails 9).exitCode.isSome ↔ 9 % 256 = 0) ∧
      ((reapDetails 9).signalNumber.isSome ↔ 9 % 256 ≠ 0) ∧
      ¬ ((reapDetails 9).exitCode.isSome ∧
          (reapDetails 9).signalNumber.isSome) ∧
      ((reapDetails 9).signalName.isSome ↔
        9 % 256 ≠ 0 ∧ knownSignal (9 % 256) = true)) :=
  ⟨reapDetails_exit_xor_signal 256, reapDetails_exit_xor_signal 9⟩

/-- State of the wait loop `ProcessPool._wait` (process_pool.py, lines
325-386): the set of unreaped child pids, the pending alarm (seconds) if one
is armed, the os.kill calls issued so far as (pid, signal number) pairs, the
something_went_wrong flag, and whether the loop has aborted with an uncaught
exception. -/
structure WaitState where
  running : List Nat
  alarm : Option Nat
  sent : List (Nat × Nat)
  wentWrong : Bool
  crashed : Bool
deriving DecidableEq, Repr

/-- The events the wait loop reacts to: os.wait3 returning a reaped child with
its wait status, or the SIGALRM alarm firing (raising TimeoutException inside
the loop). -/
inductive WaitEvent where
  | childExit (pid : Nat) (status : Nat)
  | alarmFires
deriving DecidableEq, Repr

/-- One reaction of `ProcessPool._wait` (process_pool.py, lines 327-382).
On a reaped child the pid leaves running_procs, and if the wait status is
nonzero the loop sets something_went_wrong and arms signal.alarm with
SIGTERM_TIMEOUT = 5 seconds (lines 376-382). When the alarm fires,
TimeoutException is raised and its handler (lines 367-369) first calls
`log(...)`, a name that is undefined at module scope of process_pool.py (the
method is self.log); the resulting NameError is caught by no except clause of
the loop, so the loop aborts before `_kill_all_child_processes` is reached and
no signal is sent. After a crash no further events are processed. -/
def waitStep (s : WaitState) (e : WaitEvent) : WaitState :=
  if s.crashed then s
  else
    match e with
    | .childExit pid status =>
      let s1 : WaitState := { s with running := s.running.erase pid }
      if status ≠ 0 then
        { s1 with alarm := some SIGTERM_TIMEOUT, wentWrong := true }
      else s1
    | .alarmFires => { s with crashed := true }

/-- The wait loop run over a sequence of events. -/
def waitRun (s : WaitState) (events : List WaitEvent) : WaitState :=
  events.foldl waitStep s

/-- `ProcessPool._kill_all_child_processes` (process_pool.py, lines 388-397)
as written: it iterates the running pids and calls os.kill(pid, SIGTERM); a
successful kill is immediately followed by a call to the undefined name `log`
(the method is self.log), whose NameError is not caught by the except OSError
clause and aborts the loop. For a nonempty running set the routine therefore
sends SIGTERM to the first pid and then aborts; the Bool records whether it
aborted with the NameError. SIGKILL appears nowhere in process_pool.py. -/
def killAllChildProcesses (running : List Nat) : List (Nat × Nat) × Bool :=
  match running with
  | [] => ([], false)
  | pid :: _ => ([(pid, SIGTERM)], true)

/-- C3, counterexample. Children 100, 101, 102 are running; child 100 exits
with status 256 (exit code 1) and the executor arms the 5-second alarm; the
grace period expires (the alarm fires) while 101 and 102 are still unreaped.
The claim asserts that SIGKILL is then sent to the remaining children; in the
code the timeout handler aborts on the undefined name `log` and no signal at
all is sent: the emitted kill list is empty. -/
theorem wait_grace_expiry_sends_no_sigkill :
    (waitRun ⟨[100, 101, 102], none, [], false, false⟩
        [WaitEvent.childExit 100 256, WaitEvent.alarmFires]).running =
      [101, 102] ∧
    (waitRun ⟨[100, 101, 102], none, [], false, false⟩
        [WaitEvent.childExit 100 256, WaitEvent.alarmFires]).alarm =
      some SIGTERM_TIMEOUT ∧
    (waitRun ⟨[100, 101, 102], none, [], false, false⟩
        [WaitEvent.childExit 100 256, WaitEvent.alarmFires]).sent = [] := by
  decide

/-- C3, amended. When any child exits with a nonzero wait status (non-zero
exit code or terminating signal), the executor arms a 5-second alarm; the
kill-all routine the alarm is meant to trigger sends SIGTERM and never
SIGKILL; but because both the timeout handler and the kill loop call an
undefined name `log`, the wait loop itself aborts when the alarm fires and
sends no signal at all. -/
theorem wait_teardown_behaviour (s : WaitState) (pid status : Nat)
    (events : List WaitEvent) (hnc : s.crashed = false) (hnz : status ≠ 0) :
    (waitStep s (WaitEvent.childExit pid status)).alarm = some SIGTERM_TIMEOUT ∧
    (waitStep s WaitEvent.alarmFires).crashed = true ∧
    (waitRun s events).sent = s.sent ∧
    (∀ running : List Nat, ∀ x ∈ (killAllChildProcesses running).1,
      x.2 = SIGTERM ∧ x.2 ≠ SIGKILL) := by
  refine ⟨?_, ?_, ?_, ?_⟩
  · simp [waitStep, hnc, hnz]
  · simp [waitStep, hnc]
  · clear hnc hnz
    induction events generalizing s with
    | nil => rfl
    | cons e rest ih =>
      have hstep : (waitStep s e).sent = s.sent := by
        unfold waitStep
        by_cases hc : s.crashed
        · simp [hc]
        · cases e with
          | childExit p st =>
            by_cases hst : st ≠ 0 <;> simp [hc, hst]
          | alarmFires => simp [hc]
      simpa [waitRun, List.foldl_cons, hstep] using ih (waitStep s e)
  · intro running x hx
    cases running with
    | nil => simp [killAllChildProcesses] at hx
    | cons p rest =>
      simp [killAllChildProcesses] at hx
      subst hx
      exact ⟨rfl, by simp [SIGTERM, SIGKILL]⟩

/-- C3, witness for the amended theorem at a concrete state and event list. -/
theorem wait_teardown_behaviour_witness :
    ((⟨[7, 8], none, [], false, false⟩ : WaitState).crashed = false ∧
      (256 : Nat) ≠ 0) ∧
    ((waitStep ⟨[7, 8], none, [], false, false⟩
        (WaitEvent.childExit 7 256)).alarm = some SIGTERM_TIMEOUT ∧
      (waitStep ⟨[7, 8], none, [], false, false⟩
        WaitEvent.alarmFires).crashed = true ∧
      (waitRun ⟨[7, 8], none, [], false, false⟩
        [WaitEvent.childExit 7 256, WaitEvent.alarmFires]).sent = [] ∧
      (∀ running : List Nat, ∀ x ∈ (killAllChildProcesses running).1,
        x.2 = SIGTERM ∧ x.2 ≠ SIGKILL)) := by
  have h := wait_teardown_behaviour ⟨[7, 8], none, [], false, false⟩ 7 256
    [WaitEvent.childExit 7 256, WaitEvent.alarmFires] rfl (by decide)
  exact ⟨⟨rfl, by decide⟩, h.1, h.2.1, h.2.2.1, h.2.2.2⟩

/-! ### Helpers: substring test and association-list lookup -/

/-- Whether the first character list is an initial segment of the second. -/
def startsWithChars : List Char → List Char → Bool
  | [], _ => true
  | _ :: _, [] => false
  | a :: as, b :: bs => a == b && startsWithChars as bs

/-- Whether the first character list occurs contiguously inside the second;
this is the Python substring test `needle in haystack`. -/
def hasSub (needle : List Char) : List Char → Bool
  | [] => startsWithChars needle []
  | c :: rest => startsWithChars needle (c :: rest) || hasSub needle rest

/-- Lookup in an association list modelling a Python dict (first binding for
the key, and dicts never hold a key twice). -/
def lookupA {β : Type} (m : List (String × β)) (k : String) : Option β :=
  (m.find? (fun p => p.1 == k)).map Prod.snd

/-! ### Configuration keys: `Pipeline.read_config` (pipeline.py, lines 404-412 and 484-486) -/

/-- `Pipeline.known_config_keys` (pipeline.py, lines 404-412). -/
def knownConfigKeys : List String :=
  ["destination_path", "constants", "cluster", "steps", "lmod", "tools",
   "base_working_directory", "id"]

/-- The error message of the key check (pipeline.py, line 486). -/
def unknownKeyMsg (k : String) : String :=
  "The key \"" ++ k ++ "\" set in config is unknown."

/-- The key check of `Pipeline.read_config` (pipeline.py, lines 484-486): walk
the top-level keys of the configuration and raise UAPError at the first key
outside known_config_keys; the configuration itself is not modified, so on
success it is returned unchanged. -/
def checkConfigKeys (keys : List String) : Except String (List String) :=
  match keys.find? (fun k => decide (k ∉ knownConfigKeys)) with
  | some k => .error (unknownKeyMsg k)
  | none => .ok keys

/-- C7, confirmed. The key check fails if and only if some top-level key lies
outside the recognized set, and a configuration using only recognized keys
passes the check unchanged. -/
theorem checkConfigKeys_ok_iff (keys : List String) :
    ((∃ e, checkConfigKeys keys = .error e) ↔
      ∃ k ∈ keys, k ∉ knownConfigKeys) ∧
    ((∀ k ∈ keys, k ∈ knownConfigKeys) →
      checkConfigKeys keys = .ok keys) := by
  constructor
  · constructor
    · rintro ⟨e, he⟩
      unfold checkConfigKeys at he
      cases hf : keys.find? (fun k => decide (k ∉ knownConfigKeys)) with
      | none => rw [hf] at he; exact absurd he (by simp)
      | some k =>
        have hp := List.find?_some hf
        simp only [decide_eq_true_eq] at hp
        exact ⟨k, List.mem_of_find?_eq_some hf, hp⟩
    · rintro ⟨k, hk, hout⟩
      unfold checkConfigKeys
      cases hf : keys.find? (fun k => decide (k ∉ knownConfigKeys)) with
      | none =>
        have := List.find?_eq_none.mp hf k hk
        simp only [decide_eq_true_eq, not_not] at this
        exact absurd this hout
      | some k2 => exact ⟨unknownKeyMsg k2, rfl⟩
  · intro hall
    unfold checkConfigKeys
    cases hf : keys.find? (fun k => decide (k ∉ knownConfigKeys)) with
    | none => rfl
    | some k =>
      have hp := List.find?_some hf
      simp only [decide_eq_true_eq] at hp
      exact absurd (hall k (List.mem_of_find?_eq_some hf)) hp

/-- C7, witness: a configuration using exactly the recognized keys passes the
check unchanged, and adding an unknown key makes it fail. -/
theorem checkConfigKeys_ok_iff_witness :
    ((∀ k ∈ ["steps", "tools", "id"], k ∈ knownConfigKeys) ∧
      checkConfigKeys ["steps", "tools", "id"] =
        .ok ["steps", "tools", "id"]) ∧
    (∃ e, checkConfigKeys ["steps", "typo_key"] = .error e) := by
  refine ⟨⟨by decide, (checkConfigKeys_ok_iff ["steps", "tools", "id"]).2
    (by decide)⟩, ?_⟩
  exact (checkConfigKeys_ok_iff ["steps", "typo_key"]).1.mpr
    ⟨"typo_key", by decide, by decide⟩

/-! ### Ping files: `Pipeline.check_ping_files` (pipeline.py, lines 861-928) -/

/-- A task as seen by check_ping_files: its name and, when its .queued ping
file exists and is readable, the cluster job id stored there (already passed
through str(), as the comparison on line 925 does). -/
structure PingTask where
  name : String
  queuedJobId : Option String
deriving DecidableEq, Repr

/-- Extraction of one job id from a stat output line (pipeline.py, line 893):
`int(line.strip().split(' ')[0].split('_')[0])`, added back as a string; a
line that does not parse as an integer is skipped (the ValueError branch).
Python int() also accepts an explicit plus sign and unicode digits, which is
not modelled. -/
def parseJid (line : String) : Option String :=
  let tok := ((((line.trim).splitOn " ").headD "").splitOn "_").headD ""
  tok.toInt?.map (fun i => toString i)

/-- The running job ids collected from the stat output (pipeline.py, lines
885-897): lines containing COMPLETING are skipped (slurm-specific), every
other line contributes its parsed job id if it has one. -/
def runningJids (statOutput : String) : List String :=
  ((statOutput.splitOn "\n").filter
    (fun line => !(hasSub "COMPLETING".toList line.toList))).filterMap parseJid

/-- The queue problems collected by check_ping_files (pipeline.py, lines
866-875 and 917-928). The stat invocation is modelled by its outcome: `none`
when the stat command is missing (KeyError/OSError) or failed
(CalledProcessError), in which case check_queue is False and the queued ping
files are not examined at all; `some out` when it succeeded with output `out`,
in which case a task whose queued ping file names a job id absent from the
parsed stat output is recorded as a queue problem. -/
def queueCheckTask (out : String) (t : PingTask) : Option (PingTask × String) :=
  t.queuedJobId.bind (fun jid =>
    if jid ∈ runningJids out then none else some (t, jid))

def queueProblems (statResult : Option String) (tasks : List PingTask) :
    List (PingTask × String) :=
  match statResult with
  | none => []
  | some out => tasks.filterMap (queueCheckTask out)

/-- The warning of pipeline.py, lines 877-883: printed exactly when more
warnings were requested and the queue could not be checked. -/
def statWarning (printMoreWarnings : Bool) (statResult : Option String) : Bool :=
  printMoreWarnings && statResult.isNone

/-- C8, confirmed. A queued task with a job id absent from the stat output is
reported as a queue problem exactly when the stat invocation succeeded; when
the stat command is missing or fails, no queue problem is reported for that
invocation and the warning is printed exactly when more warnings are
requested. -/
theorem queueProblems_need_stat (statResult : Option String)
    (tasks : List PingTask) (pmw : Bool) :
    (queueProblems none tasks = [] ∧
      (statWarning pmw none = true ↔ pmw = true)) ∧
    (queueProblems statResult tasks ≠ [] → statResult.isSome = true) ∧
    (∀ out, statResult = some out → statWarning pmw statResult = false ∧
      ∀ t ∈ tasks, ∀ jid, t.queuedJobId = some jid →
        ((t, jid) ∈ queueProblems statResult tasks ↔
          jid ∉ runningJids out)) := by
  refine ⟨⟨rfl, by simp [statWarning]⟩, ?_, ?_⟩
  · intro hne
    cases statResult with
    | none => exact absurd rfl hne
    | some out => rfl
  · intro out hout
    subst hout
    refine ⟨by simp [statWarning], ?_⟩
    intro t ht jid hjid
    constructor
    · intro hmem
      obtain ⟨a, ha, hfa⟩ := List.mem_filterMap.mp hmem
      unfold queueCheckTask at hfa
      cases hq : a.queuedJobId with
      | none => rw [hq] at hfa; exact absurd hfa (by simp)
      | some j =>
        rw [hq] at hfa
        simp only [Option.some_bind] at hfa
        by_cases hin : j ∈ runningJids out
        · rw [if_pos hin] at hfa; exact absurd hfa (by simp)
        · rw [if_neg hin] at hfa
          have h1 : a = t := congrArg Prod.fst (Option.some.inj hfa)
          have h2 : j = jid := congrArg Prod.snd (Option.some.inj hfa)
          subst h1; subst h2; exact hin
    · intro hnin
      refine List.mem_filterMap.mpr ⟨t, ht, ?_⟩
      unfold queueCheckTask
      rw [hjid]
      simp only [Option.some_bind]
      rw [if_neg hnin]

/-- C8, witness: with a successful stat listing job 4711, a task queued under
job id 999 is reported; with a failed stat invocation the same task is not
reported and the warning is requested. -/
theorem queueProblems_need_stat_witness :
    (queueProblems none [⟨"t1", some "999"⟩] = [] ∧
      (statWarning true none = true ↔ true = true)) ∧
    ((some " 4711 batch  RUNNING" : Option String) = some " 4711 batch  RUNNING" ∧
      (⟨"t1", some "999"⟩ : PingTask) ∈ [(⟨"t1", some "999"⟩ : PingTask)] ∧
      (⟨"t1", some "999"⟩ : PingTask).queuedJobId = some "999") ∧
    ((⟨"t1", some "999"⟩, "999") ∈
        queueProblems (some " 4711 batch  RUNNING") [⟨"t1", some "999"⟩] ↔
      "999" ∉ runningJids " 4711 batch  RUNNING") := by
  have h := queueProblems_need_stat (some " 4711 batch  RUNNING")
    [⟨"t1", some "999"⟩] true
  refine ⟨(queueProblems_need_stat none [⟨"t1", some "999"⟩] true).1,
    ⟨rfl, by decide, rfl⟩, ?_⟩
  exact (h.2.2 " 4711 batch  RUNNING" rfl).2 ⟨"t1", some "999"⟩ (by decide)
    "999" rfl

/-! ### Dependency index: `Pipeline.add_file_dependencies` and
`Pipeline.add_task_for_output_file` (pipeline.py, lines 681-700) -/

/-- The dicts of the Pipeline object touched by output registration
(pipeline.py, lines 341-382), as association lists in insertion order. -/
structure DepState where
  file_dependencies : List (String × List String)
  file_dependencies_reverse : List (String × List String)
  task_id_for_output_file : List (String × String)
  output_files_for_task_id : List (String × List String)
deriving DecidableEq, Repr

def emptyDepState : DepState := ⟨[], [], [], []⟩

/-- Add a value to the set stored under a key of a dict-of-sets (the
setdefault-then-add pattern of pipeline.py, lines 687-690 and 698-700). -/
def addToSetA (m : List (String × List String)) (k v : String) :
    List (String × List String) :=
  match m.find? (fun p => p.1 == k) with
  | none => m ++ [(k, [v])]
  | some _ =>
    m.map (fun p =>
      if p.1 == k then (p.1, if v ∈ p.2 then p.2 else p.2 ++ [v]) else p)

def dupFileMsg (p : String) : String :=
  "Different steps/runs/tags want to create the same output file: " ++ p ++ "."

def dupTaskMsg (p : String) : String :=
  "More than one step is trying to create the same output file: " ++ p ++ "."

/-- `Pipeline.add_file_dependencies` (pipeline.py, lines 681-690): raises
UAPError when the output path is already a key of file_dependencies, else
stores the set of input paths under it and extends the reverse map. -/
def addFileDependencies (st : DepState) (output : String)
    (inputs : List String) : Except String DepState :=
  if (lookupA st.file_dependencies output).isSome then
    .error (dupFileMsg output)
  else
    .ok { st with
      file_dependencies := st.file_dependencies ++ [(output, inputs.dedup)]
      file_dependencies_reverse :=
        inputs.foldl (fun m inp => addToSetA m inp output)
          st.file_dependencies_reverse }

/-- `Pipeline.add_task_for_output_file` (pipeline.py, lines 692-700): raises
UAPError when the output path is already a key of task_id_for_output_file,
else records the producing task id for it. -/
def addTaskForOutputFile (st : DepState) (output taskId : String) :
    Except String DepState :=
  if (lookupA st.task_id_for_output_file output).isSome then
    .error (dupTaskMsg output)
  else
    .ok { st with
      task_id_for_output_file := st.task_id_for_output_file ++ [(output, taskId)]
      output_files_for_task_id := addToSetA st.output_files_for_task_id taskId output }

/-- A build registering one (output path, task id) pair after another, as the
runs of the pipeline publish their output files. -/
def runAddTasks (st : DepState) : List (String × String) → Except String DepState
  | [] => .ok st
  | (p, t) :: rest =>
    match addTaskForOutputFile st p t with
    | .ok st2 => runAddTasks st2 rest
    | .error e => .error e

theorem lookupA_eq_none {β : Type} {m : List (String × β)} {k : String} :
    lookupA m k = none ↔ ∀ p ∈ m, p.1 ≠ k := by
  unfold lookupA
  constructor
  · intro h p hp
    cases hf : m.find? (fun q => q.1 == k) with
    | none =>
      have := List.find?_eq_none.mp hf p hp
      simpa using this
    | some q => rw [hf] at h; exact absurd h (by simp)
  · intro h
    cases hf : m.find? (fun q => q.1 == k) with
    | none => rfl
    | some q =>
      have hq := List.find?_some hf
      simp only [beq_iff_eq] at hq
      exact absurd hq (h q (List.mem_of_find?_eq_some hf))

/-- Accumulator lemma: a successful sequence of
`add_task_for_output_file` calls appends exactly the registered pairs to
task_id_for_output_file, and keeps its keys free of duplicates. -/
theorem runAddTasks_spec (calls : List (String × String)) :
    ∀ st st2, runAddTasks st calls = .ok st2 →
      st2.task_id_for_output_file = st.task_id_for_output_file ++ calls ∧
      ((st.task_id_for_output_file.map Prod.fst).Nodup →
        ((st.task_id_for_output_file ++ calls).map Prod.fst).Nodup) := by
  induction calls with
  | nil =>
    intro st st2 h
    cases h
    simp
  | cons c rest ih =>
    intro st st2 h
    obtain ⟨p, t⟩ := c
    unfold runAddTasks at h
    cases hadd : addTaskForOutputFile st p t with
    | error e => rw [hadd] at h; exact absurd h (by simp)
    | ok st1 =>
      rw [hadd] at h
      unfold addTaskForOutputFile at hadd
      by_cases hdup : (lookupA st.task_id_for_output_file p).isSome
      · rw [if_pos hdup] at hadd; exact absurd hadd (by simp)
      · rw [if_neg hdup] at hadd
        have hst1 : st1.task_id_for_output_file =
            st.task_id_for_output_file ++ [(p, t)] := by
          cases hadd; rfl
        obtain ⟨h1, h2⟩ := ih st1 st2 h
        constructor
        · rw [h1, hst1]; simp
        · intro hnd
          have hfresh : ∀ q ∈ st.task_id_for_output_file, q.1 ≠ p :=
            lookupA_eq_none.mp (Option.not_isSome_iff_eq_none.mp hdup)
          have hnd1 : ((st.task_id_for_output_file ++ [(p, t)]).map
              Prod.fst).Nodup := by
            rw [List.map_append]
            refine List.Nodup.append hnd (by simp) ?_
            intro x hx hy
            simp only [List.map_cons, List.map_nil, List.mem_singleton] at hy
            obtain ⟨q, hq, hqx⟩ := List.mem_map.mp hx
            exact hfresh q hq (hqx.trans hy)
          have := h2 (hst1 ▸ hnd1)
          rw [hst1] at this
          simpa using this

/-- C2, confirmed. Registering an output path that is already registered
raises a fatal error (add_file_dependencies checks file_dependencies,
add_task_for_output_file checks task_id_for_output_file), and consequently
after a successful build every output path is a key of
task_id_for_output_file at most once, mapped to exactly one task id. -/
theorem outputPath_registered_once :
    (∀ st output inputs, (lookupA st.file_dependencies output).isSome →
      addFileDependencies st output inputs = .error (dupFileMsg output)) ∧
    (∀ st output taskId, (lookupA st.task_id_for_output_file output).isSome →
      addTaskForOutputFile st output taskId = .error (dupTaskMsg output)) ∧
    (∀ calls st2, runAddTasks emptyDepState calls = .ok st2 →
      st2.task_id_for_output_file = calls ∧
      (calls.map Prod.fst).Nodup ∧
      ∀ p t t2, (p, t) ∈ st2.task_id_for_output_file →
        (p, t2) ∈ st2.task_id_for_output_file → t = t2) := by
  refine ⟨?_, ?_, ?_⟩
  · intro st output inputs h
    unfold addFileDependencies
    rw [if_pos h]
  · intro st output taskId h
    unfold addTaskForOutputFile
    rw [if_pos h]
  · intro calls st2 h
    obtain ⟨h1, h2⟩ := runAddTasks_spec calls emptyDepState st2 h
    simp only [emptyDepState, List.nil_append] at h1 h2
    have hnd : (calls.map Prod.fst).Nodup := h2 (by simp)
    refine ⟨h1, hnd, ?_⟩
    intro p t t2 hmem hmem2
    rw [h1] at hmem hmem2
    have := List.inj_on_of_nodup_map hnd hmem hmem2 rfl
    exact congrArg Prod.snd this

/-- C2, witness: two distinct output paths register fine; the state then
refuses a second task for the first path, and refuses a second
file-dependency record for an already recorded path. -/
theorem outputPath_registered_once_witness :
    (runAddTasks emptyDepState [("a.bam", "T1"), ("b.bam", "T2")] =
        .ok ⟨[], [], [("a.bam", "T1"), ("b.bam", "T2")],
          [("T1", ["a.bam"]), ("T2", ["b.bam"])]⟩ ∧
      ([("a.bam", "T1"), ("b.bam", "T2")].map
          (Prod.fst : String × String → String)).Nodup) ∧
    ((lookupA [("a.bam", "T1"), ("b.bam", "T2")] "a.bam").isSome ∧
      addTaskForOutputFile ⟨[], [], [("a.bam", "T1"), ("b.bam", "T2")], []⟩
        "a.bam" "T3" = .error (dupTaskMsg "a.bam")) ∧
    ((lookupA [("foo.bam", ["x.fq"])] "foo.bam").isSome ∧
      addFileDependencies ⟨[("foo.bam", ["x.fq"])], [], [], []⟩
        "foo.bam" ["y.fq"] = .error (dupFileMsg "foo.bam")) := by
  refine ⟨⟨by rfl, ?_⟩, ⟨by decide, ?_⟩, by decide, ?_⟩
  · exact ((outputPath_registered_once).2.2
      [("a.bam", "T1"), ("b.bam", "T2")] _ (by rfl)).2.1
  · exact (outputPath_registered_once).2.1
      ⟨[], [], [("a.bam", "T1"), ("b.bam", "T2")], []⟩ "a.bam" "T3" (by decide)
  · exact (outputPath_registered_once).1
      ⟨[("foo.bam", ["x.fq"])], [], [], []⟩ "foo.bam" ["y.fq"] (by decide)

/-! ### Task wish lists: `Pipeline.get_task_with_list` (pipeline.py, lines 832-859) -/

/-- A task as stored by the Pipeline constructor (pipeline.py, lines 429-450):
its id string and whether its run has at least one exec group. Every task is
put into task_for_task_id (line 450, with duplicate ids rejected on line 449),
while all_tasks_topologically_sorted receives only the tasks with exec groups
(line 445), in topological creation order; the `tasks` lists below are in that
creation order. -/
structure UapTask where
  id : String
  executable : Bool
deriving DecidableEq, Repr

/-- `all_tasks_topologically_sorted` as a function of the full task list. -/
def executableTasks (tasks : List UapTask) : List UapTask :=
  tasks.filter (fun t => t.executable)

/-- The error message of pipeline.py, lines 853-854. -/
def noMatchMsg (specified : List String) : String :=
  "No task matches the requested pattern(s) \x27" ++
    String.intercalate " " specified ++ "\x27."

/-- The matches collected for one entry of the wish list (pipeline.py, lines
840-851): the task registered under exactly this id if there is one, else
every task of all_tasks_topologically_sorted whose id string starts with the
entry. -/
def wishMatches (tasks : List UapTask) (tid : String) : List UapTask :=
  match tasks.find? (fun t => t.id == tid) with
  | some t => [t]
  | none => (executableTasks tasks).filter (fun t => t.id.startsWith tid)

/-- `Pipeline.get_task_with_list` (pipeline.py, lines 832-859) with
`as_string=False`: collect the matches of every entry of the run argument in
order; raise UAPError when entries were given but nothing matched; return all
of all_tasks_topologically_sorted when no entry was given and exclusive is
False; return the collected list otherwise. -/
def getTaskWithList (tasks : List UapTask) (specified : List String)
    (exclusive : Bool) : Except String (List UapTask) :=
  let wish := specified.flatMap (wishMatches tasks)
  if specified ≠ [] ∧ wish = [] then .error (noMatchMsg specified)
  else if specified = [] ∧ exclusive = false then .ok (executableTasks tasks)
  else .ok wish

theorem mem_wishMatches {tasks : List UapTask}
    (hnd : (tasks.map UapTask.id).Nodup) (tid : String) (t : UapTask) :
    t ∈ wishMatches tasks tid ↔
      (t ∈ tasks ∧ t.id = tid) ∨
      ((∀ u ∈ tasks, u.id ≠ tid) ∧ t ∈ tasks ∧ t.executable = true ∧
        t.id.startsWith tid = true) := by
  unfold wishMatches
  cases hf : tasks.find? (fun u => u.id == tid) with
  | some u =>
    have hu : u ∈ tasks := List.mem_of_find?_eq_some hf
    have huid : u.id = tid := by
      have := List.find?_some hf; simpa using this
    simp only [List.mem_singleton]
    constructor
    · intro h; subst h; exact Or.inl ⟨hu, huid⟩
    · rintro (⟨ht, hid⟩ | ⟨hno, _, _, _⟩)
      · exact List.inj_on_of_nodup_map hnd ht hu (hid.trans huid.symm)
      · exact absurd huid (hno u hu)
  | none =>
    have hno : ∀ u ∈ tasks, u.id ≠ tid := by
      intro u hu
      have := List.find?_eq_none.mp hf u hu
      simpa using this
    simp only [List.mem_filter, executableTasks]
    constructor
    · rintro ⟨⟨ht, hex⟩, hsw⟩
      exact Or.inr ⟨hno, ht, hex, hsw⟩
    · rintro (⟨ht, hid⟩ | ⟨_, ht, hex, hsw⟩)
      · exact absurd hid (hno t ht)
      · exact ⟨⟨ht, hex⟩, hsw⟩

/-- C9, confirmed. An empty wish list with exclusive False yields all tasks of
the topological task list; a non-empty wish list fails fatally exactly when no
entry matches anything, and a returned task is exactly one that some entry
matches: the task registered under exactly that id if one exists, and
otherwise any task of the topological list whose id starts with the entry. -/
theorem getTaskWithList_spec (tasks : List UapTask) (specified : List String)
    (exclusive : Bool) (hnd : (tasks.map UapTask.id).Nodup) :
    (specified = [] → exclusive = false →
      getTaskWithList tasks specified exclusive = .ok (executableTasks tasks)) ∧
    (specified ≠ [] →
      (getTaskWithList tasks specified exclusive = .error (noMatchMsg specified) ↔
        ∀ tid ∈ specified, (∀ t ∈ tasks, t.id ≠ tid) ∧
          ∀ t ∈ tasks, ¬(t.executable = true ∧ t.id.startsWith tid = true))) ∧
    (specified ≠ [] → ∀ res,
      getTaskWithList tasks specified exclusive = .ok res → ∀ t,
        (t ∈ res ↔ ∃ tid ∈ specified,
          (t ∈ tasks ∧ t.id = tid) ∨
          ((∀ u ∈ tasks, u.id ≠ tid) ∧ t ∈ tasks ∧ t.executable = true ∧
            t.id.startsWith tid = true))) := by
  have hwishnil : ∀ tid, wishMatches tasks tid = [] ↔
      ((∀ t ∈ tasks, t.id ≠ tid) ∧
        ∀ t ∈ tasks, ¬(t.executable = true ∧ t.id.startsWith tid = true)) := by
    intro tid
    rw [List.eq_nil_iff_forall_not_mem]
    constructor
    · intro h
      constructor
      · intro t ht htid
        exact h t ((mem_wishMatches hnd tid t).mpr (Or.inl ⟨ht, htid⟩))
      · rintro t ht ⟨hex, hsw⟩
        by_cases hex2 : ∀ u ∈ tasks, u.id ≠ tid
        · exact h t ((mem_wishMatches hnd tid t).mpr
            (Or.inr ⟨hex2, ht, hex, hsw⟩))
        · push_neg at hex2
          obtain ⟨u, hu, huid⟩ := hex2
          exact h u ((mem_wishMatches hnd tid u).mpr (Or.inl ⟨hu, huid⟩))
    · rintro ⟨h1, h2⟩ t hmem
      rcases (mem_wishMatches hnd tid t).mp hmem with ⟨ht, hid⟩ | ⟨_, ht, hex, hsw⟩
      · exact h1 t ht hid
      · exact h2 t ht ⟨hex, hsw⟩
  refine ⟨?_, ?_, ?_⟩
  · intro hsp hex
    subst hsp; subst hex
    simp [getTaskWithList]
  · intro hsp
    unfold getTaskWithList
    by_cases hw : specified.flatMap (wishMatches tasks) = []
    · rw [if_pos ⟨hsp, hw⟩]
      simp only [true_iff]
      intro tid htid
      exact (hwishnil tid).mp (List.flatMap_eq_nil_iff.mp hw tid htid)
    · rw [if_neg (fun hc => hw hc.2)]
      rw [if_neg (fun hc => hsp hc.1)]
      simp only [reduceCtorEq, false_iff]
      intro hall
      exact hw (List.flatMap_eq_nil_iff.mpr
        (fun tid htid => (hwishnil tid).mpr (hall tid htid)))
  · intro hsp res hres t
    unfold getTaskWithList at hres
    by_cases hw : specified.flatMap (wishMatches tasks) = []
    · rw [if_pos ⟨hsp, hw⟩] at hres
      exact absurd hres (by simp)
    · rw [if_neg (fun hc => hw hc.2)] at hres
      rw [if_neg (fun hc => hsp hc.1)] at hres
      have hres2 : res = specified.flatMap (wishMatches tasks) :=
        (Except.ok.inj hres).symm
      subst hres2
      rw [List.mem_flatMap]
      constructor
      · rintro ⟨tid, htid, hmem⟩
        exact ⟨tid, htid, (mem_wishMatches hnd tid t).mp hmem⟩
      · rintro ⟨tid, htid, hmem⟩
        exact ⟨tid, htid, (mem_wishMatches hnd tid t).mpr hmem⟩

/-- C9, witness. Tasks cutadapt-r1, cutadapt-r2 (executable) and src-run
(no exec groups): the empty wish list returns the executable tasks; the wish
list with the exact id src-run and the prefix cutadapt returns matches
characterized as the claim states; the wish list nomatch fails. -/
theorem getTaskWithList_spec_witness :
    (([⟨"cutadapt-r1", true⟩, ⟨"cutadapt-r2", true⟩,
        ⟨"src-run", false⟩].map UapTask.id).Nodup ∧
      ([] : List String) = [] ∧ false = false ∧
      ["cutadapt", "nomatch"] ≠ ([] : List String)) ∧
    getTaskWithList [⟨"cutadapt-r1", true⟩, ⟨"cutadapt-r2", true⟩,
        ⟨"src-run", false⟩] [] false =
      .ok [⟨"cutadapt-r1", true⟩, ⟨"cutadapt-r2", true⟩] ∧
    (getTaskWithList [⟨"cutadapt-r1", true⟩, ⟨"cutadapt-r2", true⟩,
        ⟨"src-run", false⟩] ["nomatch"] false =
        .error (noMatchMsg ["nomatch"]) ↔
      ∀ tid ∈ ["nomatch"],
        (∀ t ∈ [⟨"cutadapt-r1", true⟩, ⟨"cutadapt-r2", true⟩,
          (⟨"src-run", false⟩ : UapTask)], t.id ≠ tid) ∧
        ∀ t ∈ [⟨"cutadapt-r1", true⟩, ⟨"cutadapt-r2", true⟩,
          (⟨"src-run", false⟩ : UapTask)],
          ¬(t.executable = true ∧ t.id.startsWith tid = true)) := by
  have h := getTaskWithList_spec
    [⟨"cutadapt-r1", true⟩, ⟨"cutadapt-r2", true⟩, ⟨"src-run", false⟩]
    ["nomatch"] false (by decide)
  have h0 := getTaskWithList_spec
    [⟨"cutadapt-r1", true⟩, ⟨"cutadapt-r2", true⟩, ⟨"src-run", false⟩]
    [] false (by decide)
  refine ⟨⟨by decide, rfl, rfl, by decide⟩, ?_, h.2.1 (by decide)⟩
  have := h0.1 rfl rfl
  simpa [executableTasks] using this

/-! ### Step graph construction: `Pipeline.build_steps`
(pipeline.py, lines 592-672) -/

/-- A step as it enters the topological sort of build_steps after step one
(instantiation) and step two (dependency resolution): its instance name, the
type string returned by `get_step_type()` (defined on the step classes in
abstract_step.py, which is not under src/; it yields the module name, and for
the source controller step the string source_controller), and the parent names
of its declared _depends option. -/
structure StepDecl where
  name : String
  type : String
  depends : List String
deriving DecidableEq, Repr

/-- Token of a natural-sort key: a maximal digit run as its numeric value, or
a single other character. -/
inductive NatTok where
  | num (n : Nat)
  | ch (c : Char)
deriving DecidableEq, Repr

/-- Tokenizer for the natural-sort key: maximal digit runs become their
numeric value (accumulated in the pending argument), other characters stand
alone. -/
def natTokensAux : Option Nat → List Char → List NatTok
  | pending, [] =>
    match pending with
    | none => []
    | some n => [NatTok.num n]
  | pending, c :: cs =>
    if c.isDigit then
      natTokensAux (some ((pending.getD 0) * 10 + (c.toNat - 48))) cs
    else
      match pending with
      | none => NatTok.ch c :: natTokensAux none cs
      | some n => NatTok.num n :: NatTok.ch c :: natTokensAux none cs

def natTokens (l : List Char) : List NatTok := natTokensAux none l

def tokLt : NatTok → NatTok → Bool
  | NatTok.num m, NatTok.num n => decide (m < n)
  | NatTok.num _, NatTok.ch _ => true
  | NatTok.ch _, NatTok.num _ => false
  | NatTok.ch c, NatTok.ch d => decide (c < d)

def natLeTok : List NatTok → List NatTok → Bool
  | [], _ => true
  | _ :: _, [] => false
  | a :: as, b :: bs =>
    if tokLt a b then true
    else if tokLt b a then false
    else natLeTok as bs

/-- Modelled from the spec: `misc.natsorted` (misc.py is not under src/). The
spec says ties are broken by natural-sort by name, so names are compared as
token lists with digit runs compared numerically and other characters by code
point, digit runs ordering before other characters. -/
def natLe (a b : String) : Prop :=
  natLeTok (natTokens a.toList) (natTokens b.toList) = true

instance : DecidableRel natLe := fun a b =>
  inferInstanceAs (Decidable (_ = true))

def natsorted (l : List String) : List String := l.insertionSort natLe

def stepTypeOf (steps : List StepDecl) (name : String) : String :=
  match steps.find? (fun s => s.name == name) with
  | some s => s.type
  | none => ""

def stepDependsOf (steps : List StepDecl) (name : String) : List String :=
  match steps.find? (fun s => s.name == name) with
  | some s => s.depends
  | none => []

/-- The readiness test of build_steps (pipeline.py, lines 650-656): every
dependency of the step is already assigned. -/
def isReady (steps : List StepDecl) (assigned : List String) (name : String) :
    Bool :=
  (stepDependsOf steps name).all (fun d => decide (d ∈ assigned))

/-- One selection pass of the topological sort (pipeline.py, lines 647-662).
The Python loop appends every ready step name to next_steps and, upon
encountering a ready step of type source_controller, discards the collected
list, keeps only that step and leaves the loop; the result is therefore the
singleton of the first ready source_controller in iteration order if there is
one, and the list of all ready names otherwise. Python iterates
unassigned_steps as a set, whose order is an implementation detail; the model
iterates the remaining names in their declaration order. -/
def selectRound (steps : List StepDecl) (assigned unassigned : List String) :
    List String :=
  match unassigned.find? (fun n =>
      isReady steps assigned n && stepTypeOf steps n == "source_controller") with
  | some n => [n]
  | none => unassigned.filter (isReady steps assigned)

/-- The cycle error message (pipeline.py, line 664). It is a fixed string. -/
def cycleMsg : String := "There is a cycle in the step dependencies."

/-- The while loop of build_steps step three (pipeline.py, lines 645-668),
with the number of remaining iterations made explicit as fuel. Every
successful round removes at least one name from unassigned_steps, so fuel
equal to the initial length of unassigned_steps is never exhausted; the
fuel-0 branch mirrors the loop guard and is unreachable from buildStepsOrder
(theorem topoLoopF_spec relies on length unassigned being at most fuel). -/
def topoLoopF (steps : List StepDecl) :
    Nat → List String → List String → Except String (List String)
  | 0, _, unassigned => if unassigned = [] then .ok [] else .error cycleMsg
  | fuel + 1, assigned, unassigned =>
    if unassigned = [] then .ok []
    else if selectRound steps assigned unassigned = [] then .error cycleMsg
    else
      match topoLoopF steps fuel
          (assigned ++ natsorted (selectRound steps assigned unassigned))
          (unassigned.filter (fun n =>
            decide (n ∉ natsorted (selectRound steps assigned unassigned)))) with
      | .ok rest => .ok (natsorted (selectRound steps assigned unassigned) ++ rest)
      | .error e => .error e

/-- The undefined-dependency error of build_steps step two (pipeline.py,
lines 631-636). -/
def undefinedDepMsg (sname d : String) : String :=
  "Step " ++ sname ++ " specifies an undefined dependency: " ++ d ++ "."

def findUndefinedDep (steps : List StepDecl) : Option (String × String) :=
  steps.findSome? (fun s =>
    (s.depends.find? (fun d => decide (d ∉ steps.map StepDecl.name))).map
      (fun d => (s.name, d)))

/-- Steps two and three of `Pipeline.build_steps` (pipeline.py, lines
630-668): reject a dependency on an undeclared step, then topologically
order the step names. Step one (step key parsing and the reserved name temp)
happens before and does not influence the ordering. -/
def buildStepsOrder (steps : List StepDecl) : Except String (List String) :=
  match findUndefinedDep steps with
  | some pr => .error (undefinedDepMsg pr.1 pr.2)
  | none =>
    topoLoopF steps (steps.map StepDecl.name).length []
      (steps.map StepDecl.name)

/-- The round construction as claim C6 words it, for refinement comparison
with the code: in each round all steps whose parents are already placed are
placed in natural-sort order, except that an eligible source_controller step
is moved to the front of its round. -/
def claimRound (steps : List StepDecl) (assigned unassigned : List String) :
    List String :=
  let ready := unassigned.filter (isReady steps assigned)
  match ready.find? (fun n => stepTypeOf steps n == "source_controller") with
  | some n => n :: natsorted (ready.filter (fun m => decide (m ≠ n)))
  | none => natsorted ready

def claimTopoLoopF (steps : List StepDecl) :
    Nat → List String → List String → Except String (List String)
  | 0, _, unassigned => if unassigned = [] then .ok [] else .error cycleMsg
  | fuel + 1, assigned, unassigned =>
    if unassigned = [] then .ok []
    else
      let placed := claimRound steps assigned unassigned
      if placed = [] then .error cycleMsg
      else
        match claimTopoLoopF steps fuel (assigned ++ placed)
            (unassigned.filter (fun n => decide (n ∉ placed))) with
        | .ok rest => .ok (placed ++ rest)
        | .error e => .error e

/-- The ordering described by claim C6, for refinement comparison. -/
def buildStepsOrderClaim (steps : List StepDecl) : Except String (List String) :=
  match findUndefinedDep steps with
  | some pr => .error (undefinedDepMsg pr.1 pr.2)
  | none =>
    claimTopoLoopF steps (steps.map StepDecl.name).length []
      (steps.map StepDecl.name)

/-- One name occurs strictly before another in a list. -/
def precedes (l : List String) (a b : String) : Prop :=
  ∃ i j : Nat, i < j ∧ l[i]? = some a ∧ l[j]? = some b

theorem precedes_append_right {l1 l2 : List String} {a b : String}
    (h : precedes l2 a b) : precedes (l1 ++ l2) a b := by
  obtain ⟨i, j, hij, ha, hb⟩ := h
  refine ⟨l1.length + i, l1.length + j, by omega, ?_, ?_⟩
  · rw [List.getElem?_append_right (by omega)]
    simpa [Nat.add_sub_cancel_left] using ha
  · rw [List.getElem?_append_right (by omega)]
    simpa [Nat.add_sub_cancel_left] using hb

theorem precedes_append_of_mem {l1 l2 : List String} {a b : String}
    (ha : a ∈ l1) (hb : b ∈ l2) : precedes (l1 ++ l2) a b := by
  obtain ⟨i, hi, hia⟩ := List.getElem_of_mem ha
  obtain ⟨j, hj, hjb⟩ := List.getElem_of_mem hb
  refine ⟨i, l1.length + j, by omega, ?_, ?_⟩
  · rw [List.getElem?_append_left hi, List.getElem?_eq_getElem hi, hia]
  · rw [List.getElem?_append_right (by omega)]
    have harith : l1.length + j - l1.length = j := by omega
    rw [harith, List.getElem?_eq_getElem hj, hjb]

theorem precedes_indexOf_lt {l : List String} (hnd : l.Nodup) {a b : String}
    (h : precedes l a b) : List.indexOf a l < List.indexOf b l := by
  obtain ⟨i, j, hij, ha, hb⟩ := h
  obtain ⟨hi, hia⟩ := List.getElem?_eq_some.mp ha
  obtain ⟨hj, hjb⟩ := List.getElem?_eq_some.mp hb
  have h1 : List.indexOf a l = i := by
    rw [← show l.get ⟨i, hi⟩ = a from hia]
    exact List.get_indexOf hnd ⟨i, hi⟩
  have h2 : List.indexOf b l = j := by
    rw [← show l.get ⟨j, hj⟩ = b from hjb]
    exact List.get_indexOf hnd ⟨j, hj⟩
  omega

theorem natsorted_perm (l : List String) : (natsorted l).Perm l :=
  List.perm_insertionSort natLe l

theorem filter_eq_singleton_of_nodup {l : List String} (hnd : l.Nodup)
    {a : String} (ha : a ∈ l) :
    l.filter (fun x => decide (x = a)) = [a] := by
  induction l with
  | nil => cases ha
  | cons b t ihl =>
    obtain ⟨hbt, hndt⟩ := List.nodup_cons.mp hnd
    rw [List.filter_cons]
    rcases List.mem_cons.mp ha with h | h
    · subst h
      rw [if_pos (by simp)]
      have hnil : t.filter (fun x => decide (x = a)) = [] := by
        rw [List.eq_nil_iff_forall_not_mem]
        intro x hx
        obtain ⟨hxt, hxb⟩ := List.mem_filter.mp hx
        have hxa : x = a := of_decide_eq_true hxb
        exact hbt (hxa ▸ hxt)
      rw [hnil]
    · have hba : ¬(b = a) := fun hc => hbt (hc ▸ h)
      rw [if_neg (by simpa using hba)]
      exact ihl hndt h

theorem selectRound_mem {steps : List StepDecl}
    {assigned unassigned : List String} :
    ∀ n ∈ selectRound steps assigned unassigned,
      n ∈ unassigned ∧ isReady steps assigned n = true := by
  intro n hn
  unfold selectRound at hn
  cases hf : unassigned.find? (fun m =>
      isReady steps assigned m && stepTypeOf steps m == "source_controller") with
  | some m =>
    rw [hf] at hn
    simp only [List.mem_singleton] at hn
    subst hn
    have hp := List.find?_some hf
    simp only [Bool.and_eq_true] at hp
    exact ⟨List.mem_of_find?_eq_some hf, hp.1⟩
  | none =>
    rw [hf] at hn
    simp only [List.mem_filter] at hn
    exact hn

theorem filter_mem_selectRound {steps : List StepDecl}
    {assigned unassigned : List String} (hnd : unassigned.Nodup) :
    unassigned.filter
        (fun x => decide (x ∈ selectRound steps assigned unassigned)) =
      selectRound steps assigned unassigned := by
  unfold selectRound
  cases hf : unassigned.find? (fun m =>
      isReady steps assigned m && stepTypeOf steps m == "source_controller") with
  | some n =>
    have hn : n ∈ unassigned := List.mem_of_find?_eq_some hf
    have hcongr : ∀ x ∈ unassigned,
        decide (x ∈ [n]) = decide (x = n) := by
      intro x _
      exact decide_eq_decide.mpr List.mem_singleton
    rw [List.filter_congr hcongr]
    exact filter_eq_singleton_of_nodup hnd hn
  | none =>
    apply List.filter_congr
    intro x hx
    by_cases hr : isReady steps assigned x = true
    · rw [hr]
      simp [List.mem_filter, hx, hr]
    · rw [Bool.eq_false_iff.mpr hr]
      simp [List.mem_filter, hr]

theorem find?_name_eq {steps : List StepDecl}
    (hsnd : (steps.map StepDecl.name).Nodup) {s : StepDecl} (hs : s ∈ steps) :
    steps.find? (fun t => t.name == s.name) = some s := by
  induction steps with
  | nil => cases hs
  | cons t rest ihs =>
    have hndmap : t.name ∉ rest.map StepDecl.name ∧
        (rest.map StepDecl.name).Nodup := by
      simpa using List.nodup_cons.mp hsnd
    by_cases ht : t.name = s.name
    · rcases List.mem_cons.mp hs with h | h
      · subst h
        exact List.find?_cons_of_pos _ (by simp)
      · exact absurd (ht ▸ List.mem_map_of_mem StepDecl.name h) hndmap.1
    · rcases List.mem_cons.mp hs with h | h
      · exact absurd (congrArg StepDecl.name h.symm) ht
      · rw [List.find?_cons_of_neg _ (by simpa using ht)]
        exact ihs hndmap.2 h

theorem isReady_deps_assigned {steps : List StepDecl}
    (hsnd : (steps.map StepDecl.name).Nodup) {s : StepDecl} (hs : s ∈ steps)
    {assigned : List String} (hr : isReady steps assigned s.name = true) :
    ∀ d ∈ s.depends, d ∈ assigned := by
  intro d hd
  unfold isReady stepDependsOf at hr
  rw [find?_name_eq hsnd hs] at hr
  have := List.all_eq_true.mp hr d hd
  simpa using this

/-- The invariant of the while loop: a successful run returns a permutation of
the remaining names in which every dependency of a returned step is either
already assigned or placed strictly before the step. -/
theorem topoLoopF_spec (steps : List StepDecl)
    (hsnd : (steps.map StepDecl.name).Nodup) :
    ∀ fuel unassigned assigned rest,
      unassigned.length ≤ fuel → unassigned.Nodup →
      topoLoopF steps fuel assigned unassigned = .ok rest →
      rest.Perm unassigned ∧
      (∀ s ∈ steps, s.name ∈ unassigned → ∀ d ∈ s.depends,
        d ∈ assigned ∨ precedes rest d s.name) := by
  intro fuel
  induction fuel with
  | zero =>
    intro unassigned assigned rest hlen hnd h
    have hu : unassigned = [] := List.eq_nil_of_length_eq_zero (Nat.le_zero.mp hlen)
    subst hu
    simp only [topoLoopF, if_pos rfl] at h
    have hrest : rest = [] := (Except.ok.inj h).symm
    subst hrest
    exact ⟨List.Perm.refl _, by intro s _ hmem; cases hmem⟩
  | succ fuel ih =>
    intro unassigned assigned rest hlen hnd h
    by_cases hu : unassigned = []
    · subst hu
      simp only [topoLoopF, if_pos rfl] at h
      have hrest : rest = [] := (Except.ok.inj h).symm
      subst hrest
      exact ⟨List.Perm.refl _, by intro s _ hmem; cases hmem⟩
    · simp only [topoLoopF] at h
      rw [if_neg hu] at h
      by_cases hn : selectRound steps assigned unassigned = []
      · rw [if_pos hn] at h
        exact absurd h (by simp)
      · rw [if_neg hn] at h
        cases hrec : topoLoopF steps fuel
            (assigned ++ natsorted (selectRound steps assigned unassigned))
            (unassigned.filter (fun n =>
              decide (n ∉ natsorted (selectRound steps assigned unassigned)))) with
        | error e =>
          rw [hrec] at h
          exact absurd h (by simp)
        | ok rest2 =>
          rw [hrec] at h
          simp only at h
          have hrest : rest =
              natsorted (selectRound steps assigned unassigned) ++ rest2 :=
            (Except.ok.inj h).symm
          subst hrest
          have hperm_pn : (natsorted
              (selectRound steps assigned unassigned)).Perm
              (selectRound steps assigned unassigned) :=
            natsorted_perm _
          have hfe := @filter_mem_selectRound steps assigned unassigned hnd
          have hUeq : unassigned.filter (fun n =>
                decide (n ∉ natsorted (selectRound steps assigned unassigned))) =
              unassigned.filter (fun x =>
                !(decide (x ∈ selectRound steps assigned unassigned))) := by
            apply List.filter_congr
            intro x _
            rw [decide_not]
            congr 1
            exact decide_eq_decide.mpr hperm_pn.mem_iff
          obtain ⟨n0, hn0⟩ := List.exists_mem_of_ne_nil _ hn
          have hn0u : n0 ∈ unassigned := (selectRound_mem n0 hn0).1
          have hlenU : (unassigned.filter (fun n =>
              decide (n ∉ natsorted (selectRound steps assigned unassigned)))).length ≤
              fuel := by
            have hlt : (unassigned.filter (fun n =>
                decide (n ∉ natsorted (selectRound steps assigned unassigned)))).length <
                unassigned.length := by
              rw [List.length_filter_lt_length_iff_exists]
              exact ⟨n0, hn0u, by simpa using hperm_pn.mem_iff.mpr hn0⟩
            omega
          have hndU : (unassigned.filter (fun n =>
              decide (n ∉ natsorted (selectRound steps assigned unassigned)))).Nodup :=
            hnd.filter _
          obtain ⟨hperm2, hdeps2⟩ := ih _ _ _ hlenU hndU hrec
          constructor
          · refine List.Perm.trans
              (List.Perm.append hperm_pn (hUeq ▸ hperm2)) ?_
            have hsplit := List.filter_append_perm
              (fun x => decide (x ∈ selectRound steps assigned unassigned))
              unassigned
            rw [hfe] at hsplit
            exact hsplit
          · intro s hs hmem d hd
            by_cases hp : s.name ∈ natsorted (selectRound steps assigned unassigned)
            · left
              have hready := (selectRound_mem s.name (hperm_pn.mem_iff.mp hp)).2
              exact isReady_deps_assigned hsnd hs hready d hd
            · have hmemU : s.name ∈ unassigned.filter (fun n =>
                  decide (n ∉ natsorted (selectRound steps assigned unassigned))) :=
                List.mem_filter.mpr ⟨hmem, by simpa using hp⟩
              rcases hdeps2 s hs hmemU d hd with hin | hprec
              · rcases List.mem_append.mp hin with ha | hpl
                · exact Or.inl ha
                · right
                  exact precedes_append_of_mem hpl (hperm2.mem_iff.mpr hmemU)
              · exact Or.inr (precedes_append_right hprec)

/-- Every error of the topological loop carries the fixed cycle message. -/
theorem topoLoopF_error_cycle (steps : List StepDecl) :
    ∀ fuel assigned unassigned e,
      topoLoopF steps fuel assigned unassigned = .error e → e = cycleMsg := by
  intro fuel
  induction fuel with
  | zero =>
    intro assigned unassigned e h
    simp only [topoLoopF] at h
    by_cases hu : unassigned = []
    · rw [if_pos hu] at h; exact absurd h (by simp)
    · rw [if_neg hu] at h; exact (Except.error.inj h).symm
  | succ fuel ih =>
    intro assigned unassigned e h
    simp only [topoLoopF] at h
    by_cases hu : unassigned = []
    · rw [if_pos hu] at h; exact absurd h (by simp)
    · rw [if_neg hu] at h
      by_cases hn : selectRound steps assigned unassigned = []
      · rw [if_pos hn] at h; exact (Except.error.inj h).symm
      · rw [if_neg hn] at h
        cases hrec : topoLoopF steps fuel
            (assigned ++ natsorted (selectRound steps assigned unassigned))
            (unassigned.filter (fun n =>
              decide (n ∉ natsorted (selectRound steps assigned unassigned)))) with
        | ok r => rw [hrec] at h; exact absurd h (by simp)
        | error e2 =>
          rw [hrec] at h
          simp only at h
          exact (Except.error.inj h) ▸ ih _ _ _ hrec

theorem findUndefinedDep_eq_none {steps : List StepDecl}
    (hclosed : ∀ s ∈ steps, ∀ d ∈ s.depends, d ∈ steps.map StepDecl.name) :
    findUndefinedDep steps = none := by
  unfold findUndefinedDep
  rw [List.findSome?_eq_none_iff]
  intro s hs
  rw [Option.map_eq_none', List.find?_eq_none]
  intro d hd
  simpa using hclosed s hs d hd

/-- The relation: step named `a` declares a dependency on step named `b`. -/
def DependsOn (steps : List StepDecl) (a b : String) : Prop :=
  ∃ s ∈ steps, s.name = a ∧ b ∈ s.depends

/-- C6, amended (theorem part). Whenever build_steps succeeds on a
configuration with pairwise distinct step names, the produced order contains
every step name exactly once, and every step appears strictly after every
step it depends on. -/
theorem buildStepsOrder_topological (steps : List StepDecl)
    (order : List String) (hsnd : (steps.map StepDecl.name).Nodup)
    (hok : buildStepsOrder steps = .ok order) :
    order.Perm (steps.map StepDecl.name) ∧
    ∀ s ∈ steps, ∀ d ∈ s.depends,
      List.indexOf d order < List.indexOf s.name order := by
  unfold buildStepsOrder at hok
  cases hfu : findUndefinedDep steps with
  | some pr => rw [hfu] at hok; exact absurd hok (by simp)
  | none =>
    rw [hfu] at hok
    obtain ⟨hperm, hdeps⟩ :=
      topoLoopF_spec steps hsnd _ _ _ _ (Nat.le_refl _) hsnd hok
    refine ⟨hperm, ?_⟩
    intro s hs d hd
    rcases hdeps s hs (List.mem_map_of_mem _ hs) d hd with hfalse | hprec
    · exact absurd hfalse (List.not_mem_nil d)
    · exact precedes_indexOf_lt (hperm.symm.nodup hsnd) hprec

/-- The counterexample configuration for the round claim: a source controller
src, an independent step beta, and a step alpha depending on src, with alpha
natural-sorting before beta. -/
def c6Steps : List StepDecl :=
  [⟨"src", "source_controller", []⟩, ⟨"beta", "x", []⟩,
   ⟨"alpha", "x", ["src"]⟩]

/-- C6, counterexample. The claim describes rounds of all eligible steps
placed in natural-sort order with a source_controller moved to the front of
its round, which on c6Steps yields src, beta, alpha. The code instead reduces
the round of a ready source_controller to that single step (next_steps is
overwritten and the loop left, pipeline.py lines 657-660), deferring beta; in
the next round alpha and beta are both eligible and natural-sort as alpha,
beta, so the code yields src, alpha, beta. -/
theorem buildStepsOrder_round_counterexample :
    buildStepsOrder c6Steps = .ok ["src", "alpha", "beta"] ∧
    buildStepsOrderClaim c6Steps = .ok ["src", "beta", "alpha"] ∧
    ¬ (buildStepsOrder c6Steps = buildStepsOrderClaim c6Steps) := by
  have h1 : buildStepsOrder c6Steps = .ok ["src", "alpha", "beta"] := by rfl
  have h2 : buildStepsOrderClaim c6Steps = .ok ["src", "beta", "alpha"] := by rfl
  refine ⟨h1, h2, ?_⟩
  rw [h1, h2]
  intro hc
  have := Except.ok.inj hc
  simp at this

/-- C6, witness for the amended theorem on the concrete configuration. -/
theorem buildStepsOrder_topological_witness :
    ((c6Steps.map StepDecl.name).Nodup ∧
      buildStepsOrder c6Steps = .ok ["src", "alpha", "beta"]) ∧
    (["src", "alpha", "beta"].Perm (c6Steps.map StepDecl.name) ∧
      ∀ s ∈ c6Steps, ∀ d ∈ s.depends,
        List.indexOf d ["src", "alpha", "beta"] <
          List.indexOf s.name ["src", "alpha", "beta"]) := by
  have h := buildStepsOrder_topological c6Steps ["src", "alpha", "beta"]
    (by decide) (by rfl)
  exact ⟨⟨by decide, by rfl⟩, h⟩

/-- C5, amended (theorem part). For every configuration with pairwise
distinct step names and all dependencies declared whose dependency relation
has a cycle, build_steps fails with the configuration error carrying the
fixed message of pipeline.py line 664. -/
theorem buildStepsOrder_cycle_error (steps : List StepDecl)
    (hsnd : (steps.map StepDecl.name).Nodup)
    (hclosed : ∀ s ∈ steps, ∀ d ∈ s.depends, d ∈ steps.map StepDecl.name)
    (hcyc : ∃ a, Relation.TransGen (DependsOn steps) a a) :
    buildStepsOrder steps = .error cycleMsg := by
  unfold buildStepsOrder
  rw [findUndefinedDep_eq_none hclosed]
  cases hres : topoLoopF steps (steps.map StepDecl.name).length []
      (steps.map StepDecl.name) with
  | error e => rw [topoLoopF_error_cycle steps _ _ _ e hres]
  | ok order =>
    exfalso
    obtain ⟨hperm, hdeps⟩ :=
      topoLoopF_spec steps hsnd _ _ _ _ (Nat.le_refl _) hsnd hres
    have hond : order.Nodup := hperm.symm.nodup hsnd
    have hstep : ∀ x y, DependsOn steps x y →
        List.indexOf y order < List.indexOf x order := by
      intro x y hxy
      obtain ⟨s, hs, hname, hdep⟩ := hxy
      subst hname
      rcases hdeps s hs (List.mem_map_of_mem _ hs) y hdep with hf | hprec
      · exact absurd hf (List.not_mem_nil y)
      · exact precedes_indexOf_lt hond hprec
    have htrans : ∀ x y, Relation.TransGen (DependsOn steps) x y →
        List.indexOf y order < List.indexOf x order := by
      intro x y hxy
      induction hxy with
      | single h => exact hstep _ _ h
      | tail hxy hyz ihx => exact lt_trans (hstep _ _ hyz) ihx
    obtain ⟨a, hta⟩ := hcyc
    exact absurd (htrans a a hta) (lt_irrefl _)

/-- The two-step cycle of the claim sources. -/
def c5Steps : List StepDecl := [⟨"A", "x", ["B"]⟩, ⟨"B", "x", ["A"]⟩]

/-- C5, counterexample. The cycle A, B fails with the fixed message of
pipeline.py line 664, and that message contains neither participating step
name as a substring: the error does not name a step of the cycle. -/
theorem cycle_message_names_no_step :
    buildStepsOrder c5Steps = .error cycleMsg ∧
    hasSub "A".toList cycleMsg.toList = false ∧
    hasSub "B".toList cycleMsg.toList = false := by
  exact ⟨by rfl, by decide, by decide⟩

/-- C5, witness for the amended theorem on the concrete cycle. -/
theorem buildStepsOrder_cycle_error_witness :
    ((c5Steps.map StepDecl.name).Nodup ∧
      (∀ s ∈ c5Steps, ∀ d ∈ s.depends, d ∈ c5Steps.map StepDecl.name) ∧
      Relation.TransGen (DependsOn c5Steps) "A" "A") ∧
    buildStepsOrder c5Steps = .error cycleMsg := by
  have hAB : DependsOn c5Steps "A" "B" :=
    ⟨⟨"A", "x", ["B"]⟩, by decide, rfl, by decide⟩
  have hBA : DependsOn c5Steps "B" "A" :=
    ⟨⟨"B", "x", ["A"]⟩, by decide, rfl, by decide⟩
  have htg : Relation.TransGen (DependsOn c5Steps) "A" "A" :=
    Relation.TransGen.tail (Relation.TransGen.single hAB) hBA
  exact ⟨⟨by decide, by decide, htg⟩,
    buildStepsOrder_cycle_error c5Steps (by decide) (by decide) ⟨"A", htg⟩⟩

end Uap
